import Mathlib

/-!
Shallow embedding of the `cannonball-ts` pattern matcher
(`src/lang/pattern-matcher.ts`) together with the graph-store surface it
consumes, and proofs of the specification claims about it.

Conventions of the embedding:
* JS numbers are modelled as integers (`Int`); no claim depends on
  fractional or floating-point behaviour.
* JS objects used as property bags are modelled as association lists in
  key-insertion order (`List (String × Value)`); `Object.entries`
  iteration order is list order, and spread-update keeps the position of
  an existing key, which `setProp` reproduces.
* `undefined?`-style optional fields become `Option`.
* JS `Set<NodeId>` is modelled as a duplicate-free id list with
  membership and add.
-/

namespace Cannonball

/-- JS property values stored in node/edge property bags and used as
pattern property constraints: strings, numbers (modelled as integers),
booleans, null, and arrays of values. -/
inductive Value where
  | str (s : String)
  | num (n : Int)
  | bool (b : Bool)
  | null
  | arr (items : List Value)

mutual

/-- Decidable equality for `Value` (spelled out because `deriving` does
not handle the nested `List Value`). -/
def Value.decEq : (a b : Value) → Decidable (a = b)
  | .str x, .str y =>
    if h : x = y then .isTrue (by rw [h]) else .isFalse (fun hc => h (Value.str.inj hc))
  | .num x, .num y =>
    if h : x = y then .isTrue (by rw [h]) else .isFalse (fun hc => h (Value.num.inj hc))
  | .bool x, .bool y =>
    if h : x = y then .isTrue (by rw [h]) else .isFalse (fun hc => h (Value.bool.inj hc))
  | .null, .null => .isTrue rfl
  | .arr x, .arr y =>
    match Value.decEqList x y with
    | .isTrue h => .isTrue (by rw [h])
    | .isFalse h => .isFalse (fun hc => h (Value.arr.inj hc))
  | .str _, .num _ => .isFalse (fun hc => Value.noConfusion hc)
  | .str _, .bool _ => .isFalse (fun hc => Value.noConfusion hc)
  | .str _, .null => .isFalse (fun hc => Value.noConfusion hc)
  | .str _, .arr _ => .isFalse (fun hc => Value.noConfusion hc)
  | .num _, .str _ => .isFalse (fun hc => Value.noConfusion hc)
  | .num _, .bool _ => .isFalse (fun hc => Value.noConfusion hc)
  | .num _, .null => .isFalse (fun hc => Value.noConfusion hc)
  | .num _, .arr _ => .isFalse (fun hc => Value.noConfusion hc)
  | .bool _, .str _ => .isFalse (fun hc => Value.noConfusion hc)
  | .bool _, .num _ => .isFalse (fun hc => Value.noConfusion hc)
  | .bool _, .null => .isFalse (fun hc => Value.noConfusion hc)
  | .bool _, .arr _ => .isFalse (fun hc => Value.noConfusion hc)
  | .null, .str _ => .isFalse (fun hc => Value.noConfusion hc)
  | .null, .num _ => .isFalse (fun hc => Value.noConfusion hc)
  | .null, .bool _ => .isFalse (fun hc => Value.noConfusion hc)
  | .null, .arr _ => .isFalse (fun hc => Value.noConfusion hc)
  | .arr _, .str _ => .isFalse (fun hc => Value.noConfusion hc)
  | .arr _, .num _ => .isFalse (fun hc => Value.noConfusion hc)
  | .arr _, .bool _ => .isFalse (fun hc => Value.noConfusion hc)
  | .arr _, .null => .isFalse (fun hc => Value.noConfusion hc)

/-- Decidable equality for lists of `Value`s. -/
def Value.decEqList : (a b : List Value) → Decidable (a = b)
  | [], [] => .isTrue rfl
  | [], _ :: _ => .isFalse (fun hc => List.noConfusion hc)
  | _ :: _, [] => .isFalse (fun hc => List.noConfusion hc)
  | x :: xs, y :: ys =>
    match Value.decEq x y, Value.decEqList xs ys with
    | .isTrue h1, .isTrue h2 => .isTrue (by rw [h1, h2])
    | .isFalse h1, _ => .isFalse (fun hc => h1 (List.head_eq_of_cons_eq hc))
    | _, .isFalse h2 => .isFalse (fun hc => h2 (List.tail_eq_of_cons_eq hc))

end

instance : DecidableEq Value := Value.decEq

/-- Whether a value is an array (`Array.isArray`). -/
def Value.isArr : Value → Bool
  | .arr _ => true
  | _ => false

/-- Node identifiers are opaque strings. -/
abbrev NodeId := String

/-- A property bag: a JS object in key-insertion order. -/
abbrev PropBag := List (String × Value)

/-- First entry of a bag at a key, i.e. JS object lookup (`bag[key]`,
with `none` for both a missing key and `key in bag` being false). -/
def findEntry {α : Type} (bag : List (String × α)) (key : String) : Option α :=
  (bag.find? (fun kv => kv.1 == key)).map (fun kv => kv.2)

/-- JS object spread-update `{ ...bag, key: v }`: an existing key keeps
its position and gets the new value, a new key is appended. -/
def setProp (bag : PropBag) (key : String) (v : Value) : PropBag :=
  if (bag.find? (fun kv => kv.1 == key)).isSome then
    bag.map (fun kv => if kv.1 == key then (key, v) else kv)
  else
    bag ++ [(key, v)]

/-- A graph node: stable id, one primary label, and a property bag
(`none` models absent / non-object `data`, whose property checks the
source short-circuits). -/
structure Node where
  id : NodeId
  label : String
  data : Option PropBag
deriving DecidableEq

/-- A graph edge: source and target node ids, a label (the relationship
type), and a property bag. -/
structure Edge where
  source : NodeId
  target : NodeId
  label : String
  data : Option PropBag
deriving DecidableEq

/-- Modelled from the spec: the graph store (`@/graph`, not part of the
covered sources) is a directed labeled property multigraph holding a
node list and an edge list; `findNodes`/`findEdges` are linear scans and
`getEdgesForNode` selects incident edges by direction. -/
structure Graph where
  nodes : List Node
  edges : List Edge
deriving DecidableEq

/-- Modelled from the spec: `getNode(id) → Node?`. -/
def Graph.getNode (g : Graph) (id : NodeId) : Option Node :=
  g.nodes.find? (fun n => n.id == id)

/-- Modelled from the spec: `getEdge(src, tgt, label) → Edge?`; an edge
is identified by its (source, target, label) triple. -/
def Graph.getEdge (g : Graph) (src tgt label : String) : Option Edge :=
  g.edges.find? (fun e => e.source == src && e.target == tgt && e.label == label)

/-- Modelled from the spec: `findNodes(pred)` — linear scan returning a
materialized list. -/
def Graph.findNodes (g : Graph) (pred : Node → Bool) : List Node :=
  g.nodes.filter pred

/-- Modelled from the spec: `findEdges(pred)` — linear scan returning a
materialized list. -/
def Graph.findEdges (g : Graph) (pred : Edge → Bool) : List Edge :=
  g.edges.filter pred

/-- Direction of a relationship pattern: `->`, `<-`, or `-`. -/
inductive Direction where
  | outgoing
  | incoming
  | both
deriving DecidableEq

/-- Modelled from the spec: `getEdgesForNode(id, direction)` — incident
edges with src = id (outgoing), tgt = id (incoming), or either (both). -/
def Graph.getEdgesForNode (g : Graph) (id : NodeId) (direction : Direction) : List Edge :=
  match direction with
  | .outgoing => g.edges.filter (fun e => e.source == id)
  | .incoming => g.edges.filter (fun e => e.target == id)
  | .both => g.edges.filter (fun e => e.source == id || e.target == id)

/-- `NodePattern` from the source: optional variable name (`var`; the
source calls the field `variable`, a Lean keyword), labels, and property
constraints. -/
structure NodePattern where
  var : Option String
  labels : List String
  properties : PropBag
deriving DecidableEq

/-- `RelationshipPattern` from the source. -/
structure RelationshipPattern where
  var : Option String
  type : Option String
  properties : PropBag
  direction : Direction
  minHops : Option Nat
  maxHops : Option Nat
deriving DecidableEq

/-- One `(relationship, node)` segment of a path pattern. -/
structure PathSegment where
  relationship : RelationshipPattern
  node : NodePattern
deriving DecidableEq

/-- `PathPattern` from the source: a start node pattern plus segments. -/
structure PathPattern where
  start : NodePattern
  segments : List PathSegment
deriving DecidableEq

/-- A matcher result path: parallel node and edge lists
(`nodes.length = edges.length + 1` in produced paths). -/
structure Path where
  nodes : List Node
  edges : List Edge
deriving DecidableEq

/-- Resolved `PatternMatcherOptions` (every field defaulted by the
constructor). -/
structure PatternMatcherOptions where
  caseSensitiveLabels : Bool
  enableTypeCoercion : Bool
  maxPathDepth : Nat
  maxPathResults : Nat
deriving DecidableEq

/-- The optional options object passed to the `PatternMatcher`
constructor. -/
structure PatternMatcherOptionsInput where
  caseSensitiveLabels : Option Bool := none
  enableTypeCoercion : Option Bool := none
  maxPathDepth : Option Nat := none
  maxPathResults : Option Nat := none
deriving DecidableEq

/-- The `PatternMatcher` constructor's option resolution:
`caseSensitiveLabels ?? false`, `enableTypeCoercion ?? false`,
`maxPathDepth ?? 10`, `maxPathResults ?? 1000`. -/
def resolveOptions (o : PatternMatcherOptionsInput) : PatternMatcherOptions where
  caseSensitiveLabels := o.caseSensitiveLabels.getD false
  enableTypeCoercion := o.enableTypeCoercion.getD false
  maxPathDepth := o.maxPathDepth.getD 10
  maxPathResults := o.maxPathResults.getD 1000

/-- JS strict equality `===` on property values. Scalars compare
structurally; arrays are JS objects compared by reference, and in the
matcher the two operands always come from distinct objects (a pattern
literal versus graph data), so array operands yield `false`. -/
def jsStrictEq : Value → Value → Bool
  | .str a, .str b => a == b
  | .num a, .num b => a == b
  | .bool a, .bool b => a == b
  | .null, .null => true
  | _, _ => false

mutual

/-- JS `String(value)` conversion for the values of our model (arrays
join their elements with commas, as `Array.prototype.toString` does). -/
def jsToString : Value → String
  | .str s => s
  | .num n => toString n
  | .bool b => if b then "true" else "false"
  | .null => "null"
  | .arr items => String.intercalate "," (jsToStringList items)

/-- Elementwise `jsToString` over an array's items. -/
def jsToStringList : List Value → List String
  | [] => []
  | x :: xs => jsToString x :: jsToStringList xs

end

/-- Model of JS `parseFloat` on a string, restricted to the integer
numerals our `Value.num` can hold: `none` stands for `NaN` (which `===`
nothing). Prefix parsing of trailing garbage is not modelled; it is
reachable only with `enableTypeCoercion`, which no claim exercises. -/
def jsParseFloat (s : String) : Option Int :=
  s.toInt?

/-- The `enableTypeCoercion` block of `valuesMatch`: `some r` models an
early `return r` from one of the coercion cases, `none` falling through
to the array-membership check. -/
def valuesCoerce (opts : PatternMatcherOptions) (actual expected : Value) : Option Bool :=
  if opts.enableTypeCoercion then
    match expected, actual with
    | .num n, .str s => some (jsParseFloat s == some n)
    | .str s, .num n => some (toString n == s)
    | .bool b, _ =>
      let actualStr := (jsToString actual).toLower
      if b && (jsStrictEq actual (.num 1) || actualStr == "true") then some true
      else if !b && (jsStrictEq actual (.num 0) || actualStr == "false") then some true
      else none
    | _, _ => none
  else none

mutual

/-- `valuesMatch` from the source: strict equality, then the optional
type-coercion cases, then membership in an array-valued actual. -/
def valuesMatch (opts : PatternMatcherOptions) : Value → Value → Bool
  | actual, expected =>
    if jsStrictEq actual expected then true
    else
      match valuesCoerce opts actual expected with
      | some r => r
      | none =>
        match actual with
        | .arr items =>
          if expected.isArr then false
          else valuesMatchSome opts items expected
        | _ => false

/-- `Array.prototype.some(item => valuesMatch(item, expected))`:
left-to-right short-circuiting disjunction. -/
def valuesMatchSome (opts : PatternMatcherOptions) : List Value → Value → Bool
  | [], _ => false
  | x :: xs, expected => valuesMatch opts x expected || valuesMatchSome opts xs expected

end

/-- `normalizeLabel`: lower-case unless `caseSensitiveLabels`. -/
def normalizeLabel (opts : PatternMatcherOptions) (label : String) : String :=
  if opts.caseSensitiveLabels then label else label.toLower

/-- `getNodeLabels`: the source supports only the single primary label
("for now we only support nodes with a single label"). -/
def getNodeLabels (node : Node) : List String :=
  [node.label]

/-- `labelMatches`: some node label equals the required label after
normalization. -/
def labelMatches (opts : PatternMatcherOptions) (nodeLabels : List String)
    (requiredLabel : String) : Bool :=
  nodeLabels.any (fun label => normalizeLabel opts label == normalizeLabel opts requiredLabel)

/-- `typeMatches`: relationship types compare after normalization. -/
def typeMatches (opts : PatternMatcherOptions) (relationshipType requiredType : String) : Bool :=
  normalizeLabel opts relationshipType == normalizeLabel opts requiredType

/-- JS `===` between a node id (a string) and a required property value. -/
def idMatchesValue (id : NodeId) (v : Value) : Bool :=
  jsStrictEq (.str id) v

/-- `nodePropertiesMatch`: with non-object `data` the required
properties must be empty; otherwise each required entry must be present
and `valuesMatch`, except the reserved key `id`, which `===`-compares
against the node's identifier. -/
def nodePropertiesMatch (opts : PatternMatcherOptions) (node : Node)
    (requiredProps : PropBag) : Bool :=
  match node.data with
  | none => requiredProps.isEmpty
  | some nodeData =>
    requiredProps.all (fun kv =>
      if kv.1 == "id" then idMatchesValue node.id kv.2
      else
        match findEntry nodeData kv.1 with
        | some actual => valuesMatch opts actual kv.2
        | none => false)

/-- `edgePropertiesMatch`: as for nodes but with no reserved `id` key. -/
def edgePropertiesMatch (opts : PatternMatcherOptions) (edge : Edge)
    (requiredProps : PropBag) : Bool :=
  match edge.data with
  | none => requiredProps.isEmpty
  | some edgeData =>
    requiredProps.all (fun kv =>
      match findEntry edgeData kv.1 with
      | some actual => valuesMatch opts actual kv.2
      | none => false)

/-- `matchesNodePattern`: every required label must match (else false),
then, when property constraints are present, they decide the result. -/
def matchesNodePattern (opts : PatternMatcherOptions) (node : Node)
    (pattern : NodePattern) : Bool :=
  if !pattern.labels.isEmpty
      && !(pattern.labels.all (fun req => labelMatches opts (getNodeLabels node) req)) then
    false
  else if !pattern.properties.isEmpty then
    nodePropertiesMatch opts node pattern.properties
  else
    true

/-- `hasCorrectDirection`: endpoint agreement for directed patterns. -/
def hasCorrectDirection (edge : Edge) (pattern : RelationshipPattern)
    (sourceNode targetNode : Node) : Bool :=
  match pattern.direction with
  | .outgoing => edge.source == sourceNode.id && edge.target == targetNode.id
  | .incoming => edge.target == sourceNode.id && edge.source == targetNode.id
  | .both => true

/-- `matchesRelationshipPattern`: type check (skipped for an absent or
empty — JS-falsy — type), then direction when both endpoints are given,
then property constraints. -/
def matchesRelationshipPattern (opts : PatternMatcherOptions) (edge : Edge)
    (pattern : RelationshipPattern) (sourceNode targetNode : Option Node) : Bool :=
  (match pattern.type with
   | some t => t == "" || typeMatches opts edge.label t
   | none => true)
  && (match sourceNode, targetNode with
      | some s, some t => pattern.direction == .both || hasCorrectDirection edge pattern s t
      | _, _ => true)
  && (pattern.properties.isEmpty || edgePropertiesMatch opts edge pattern.properties)

/-- The matcher's internal caches (`labelCache`, `typeCache`), keyed by
normalized label / type; JS `Map` modelled as an association list in
insertion order. -/
structure MatcherState where
  labelCache : List (String × List NodeId)
  typeCache : List (String × List (NodeId × NodeId × String))
deriving DecidableEq

/-- The fresh matcher state: both caches empty. -/
def MatcherState.empty : MatcherState :=
  { labelCache := [], typeCache := [] }

/-- `clearCache`: clears both caches. -/
def clearCache (_ : MatcherState) : MatcherState :=
  MatcherState.empty

/-- `getNodesByLabel`: on a cache miss, scan, record the matching ids
under the normalized label, and in either case map the ids back through
`getNode`, dropping ids that no longer resolve. -/
def getNodesByLabel (opts : PatternMatcherOptions) (s : MatcherState) (g : Graph)
    (label : String) : List Node × MatcherState :=
  let normalized := normalizeLabel opts label
  match findEntry s.labelCache normalized with
  | some nodeIds => (nodeIds.filterMap (fun id => g.getNode id), s)
  | none =>
    let matchingNodes := g.findNodes (fun n => labelMatches opts (getNodeLabels n) label)
    let nodeIds := matchingNodes.map (fun n => n.id)
    (nodeIds.filterMap (fun id => g.getNode id),
     { s with labelCache := s.labelCache ++ [(normalized, nodeIds)] })

/-- `findMatchingNodes`: with labels, filter the label-indexed nodes by
the full pattern; otherwise scan. -/
def findMatchingNodes (opts : PatternMatcherOptions) (s : MatcherState) (g : Graph)
    (pattern : NodePattern) : List Node × MatcherState :=
  match pattern.labels with
  | [] => (g.findNodes (fun n => matchesNodePattern opts n pattern), s)
  | l0 :: _ =>
    ((getNodesByLabel opts s g l0).1.filter (fun n => matchesNodePattern opts n pattern),
     (getNodesByLabel opts s g l0).2)

/-- `getRelationshipsByType`: the type-keyed analogue of
`getNodesByLabel`, caching (source, target, label) triples. -/
def getRelationshipsByType (opts : PatternMatcherOptions) (s : MatcherState) (g : Graph)
    (type : String) : List Edge × MatcherState :=
  let normalized := normalizeLabel opts type
  match findEntry s.typeCache normalized with
  | some ids => (ids.filterMap (fun stl => g.getEdge stl.1 stl.2.1 stl.2.2), s)
  | none =>
    let matchingEdges := g.findEdges (fun e => typeMatches opts e.label type)
    let ids := matchingEdges.map (fun e => (e.source, e.target, e.label))
    (ids.filterMap (fun stl => g.getEdge stl.1 stl.2.1 stl.2.2),
     { s with typeCache := s.typeCache ++ [(normalized, ids)] })

/-- A value bound in a `BindingContext`: a node, an edge, or a scalar. -/
inductive BindingValue where
  | bnode (n : Node)
  | bedge (e : Edge)
  | bvalue (v : Value)
deriving DecidableEq

/-- A binding context: variable name to bound value, in insertion
order. -/
abbrev BindingContext := List (String × BindingValue)

/-- `bindings.has(name)`. -/
def BindingContext.has (b : BindingContext) (name : String) : Bool :=
  (findEntry b name).isSome

/-- `bindings.get(name)`. -/
def BindingContext.get (b : BindingContext) (name : String) : Option BindingValue :=
  findEntry b name

/-- The source's `boundNode && boundNode.id` guard after
`bindings.get(v) as Node`: only a bound node with a JS-truthy (i.e.
non-empty) id passes, and its id is the enrichment value. -/
def boundNodeId : Option BindingValue → Option NodeId
  | some (.bnode n) => if n.id == "" then none else some n.id
  | _ => none

/-- The enrichment `enrichPatternWithBindings` applies to the start node
pattern and to each segment's node pattern: when the pattern has a
JS-truthy variable that is bound in the context and resolves to a node
with a truthy id, add an `id` property constraint with that id. -/
def enrichNodePattern (pattern : NodePattern) (bindings : BindingContext) : NodePattern :=
  match pattern.var with
  | some v =>
    if v != "" && bindings.has v then
      match boundNodeId (bindings.get v) with
      | some id => { pattern with properties := setProp pattern.properties "id" (.str id) }
      | none => pattern
    else pattern
  | none => pattern

/-- `enrichPatternWithBindings`: clone of the pattern with the start
node pattern and every segment node pattern enriched; relationship
patterns are cloned unchanged. -/
def enrichPatternWithBindings (pattern : PathPattern) (bindings : BindingContext) : PathPattern :=
  { start := enrichNodePattern pattern.start bindings
    segments := pattern.segments.map (fun seg =>
      { relationship := seg.relationship, node := enrichNodePattern seg.node bindings }) }


/-- `getCandidateEdges`: incident edges of the current node selected by
the pattern direction (the direction field is always present in a typed
pattern, so the JS `|| 'outgoing'` default never fires). -/
def getCandidateEdges (g : Graph) (nodeId : NodeId) (direction : Direction) : List Edge :=
  g.getEdgesForNode nodeId direction

/-- `getNeighborNode`: the node at the other end of `edge` relative to
`currentNodeId`, respecting the pattern direction, or `none` when the
edge does not align. -/
def getNeighborNode (g : Graph) (currentNodeId : NodeId) (edge : Edge)
    (patternDirection : Direction) : Option Node :=
  if edge.source == currentNodeId
      && (patternDirection == .outgoing || patternDirection == .both) then
    g.getNode edge.target
  else if edge.target == currentNodeId
      && (patternDirection == .incoming || patternDirection == .both) then
    g.getNode edge.source
  else
    none

/-- The variability test of `findMatchingPaths`:
`!(minHops === 1 && maxHopsSpecified === 1)`, where an unspecified
`maxHops` stays `undefined` and therefore makes the segment variable. -/
def segmentIsVariable (relPat : RelationshipPattern) : Bool :=
  !(relPat.minHops.getD 1 == 1 && relPat.maxHops == some 1)

/-- The traversal hop cap of `findMatchingPaths`:
`min(maxHopsSpecified, maxPathDepth)`, or `maxPathDepth` when
`maxHops` is unspecified. -/
def maxHopsTraversal (opts : PatternMatcherOptions) (relPat : RelationshipPattern) : Nat :=
  match relPat.maxHops with
  | some m => min m opts.maxPathDepth
  | none => opts.maxPathDepth

/-- The BFS queue state of `findMatchingPaths`. -/
structure QueueState where
  currentNode : Node
  currentPath : Path
  segmentIdx : Nat
  varHopCount : Nat
  visitedInPath : List NodeId
deriving DecidableEq

/-- `Set.add` on the visited-id set. -/
def visitedAdd (visited : List NodeId) (id : NodeId) : List NodeId :=
  if visited.contains id then visited else visited ++ [id]

/-- The edge loop of `findMatchingPaths` for one dequeued state:
for each candidate edge, resolve the neighbor, match the relationship
pattern, check an `id` constraint on the segment's target node pattern,
then independently complete (emit a result), extend the variable
segment, or advance to the next segment; pushes stop and the loop
breaks once `maxPathResults` results exist. -/
def processEdges (opts : PatternMatcherOptions) (g : Graph) (st : QueueState)
    (relPat : RelationshipPattern) (targetPat : NodePattern)
    (minHops maxTrav : Nat) (isVariable isFinal : Bool) :
    List Edge → List Path × List QueueState → List Path × List QueueState
  | [], acc => acc
  | edge :: rest, (results, queue) =>
    match getNeighborNode g st.currentNode.id edge relPat.direction with
    | none => processEdges opts g st relPat targetPat minHops maxTrav isVariable isFinal
        rest (results, queue)
    | some neighborNode =>
      if !matchesRelationshipPattern opts edge relPat (some st.currentNode) (some neighborNode) then
        processEdges opts g st relPat targetPat minHops maxTrav isVariable isFinal
          rest (results, queue)
      else
        let newHopCount := st.varHopCount + 1
        let newPath : Path :=
          { nodes := st.currentPath.nodes ++ [neighborNode]
            edges := st.currentPath.edges ++ [edge] }
        let newVisited := visitedAdd st.visitedInPath neighborNode.id
        let wouldCycle := st.visitedInPath.contains neighborNode.id
        if (match findEntry targetPat.properties "id" with
            | some expectedId => !idMatchesValue neighborNode.id expectedId
            | none => false) then
          processEdges opts g st relPat targetPat minHops maxTrav isVariable isFinal
            rest (results, queue)
        else
          let matchedTargetNode := matchesNodePattern opts neighborNode targetPat
          let completes := isFinal && decide (minHops ≤ newHopCount) && matchedTargetNode
          let results1 :=
            if completes && decide (results.length < opts.maxPathResults) then
              results ++ [newPath]
            else results
          if completes && decide (opts.maxPathResults ≤ results1.length) then
            (results1, queue)
          else if completes && !isVariable then
            processEdges opts g st relPat targetPat minHops maxTrav isVariable isFinal
              rest (results1, queue)
          else
            let queue1 :=
              if isVariable && decide (newHopCount < maxTrav) && !wouldCycle then
                queue ++ [{ currentNode := neighborNode, currentPath := newPath,
                            segmentIdx := st.segmentIdx, varHopCount := newHopCount,
                            visitedInPath := newVisited }]
              else queue
            let queue2 :=
              if decide (minHops ≤ newHopCount) && matchedTargetNode && !isFinal
                  && !wouldCycle then
                queue1 ++ [{ currentNode := neighborNode, currentPath := newPath,
                             segmentIdx := st.segmentIdx + 1, varHopCount := 0,
                             visitedInPath := newVisited }]
              else queue1
            if decide (opts.maxPathResults ≤ results1.length) then (results1, queue2)
            else processEdges opts g st relPat targetPat minHops maxTrav isVariable isFinal
              rest (results1, queue2)

/-- The body of one BFS iteration after dequeuing `st`: skip states
whose segment index is out of bounds or whose path has reached
`maxPathDepth`, otherwise run the edge loop for the current segment. -/
def bfsStep (opts : PatternMatcherOptions) (g : Graph) (segments : List PathSegment)
    (st : QueueState) (results : List Path) (queue : List QueueState) :
    List Path × List QueueState :=
  match segments[st.segmentIdx]? with
  | none => (results, queue)
  | some currentSegment =>
    let relPat := currentSegment.relationship
    let targetPat := currentSegment.node
    let minHops := relPat.minHops.getD 1
    if opts.maxPathDepth ≤ st.currentPath.edges.length then
      (results, queue)
    else
      let isFinal := decide (segments.length ≤ st.segmentIdx + 1)
      let candidateEdges := getCandidateEdges g st.currentNode.id relPat.direction
      processEdges opts g st relPat targetPat minHops (maxHopsTraversal opts relPat)
        (segmentIsVariable relPat) isFinal candidateEdges (results, queue)

/-- The BFS `while` loop of `findMatchingPaths` for one start node; the
fuel argument models the `bfsIterations` safety break (100000). -/
def bfsLoop (opts : PatternMatcherOptions) (g : Graph) (segments : List PathSegment) :
    Nat → List QueueState → List Path → List Path
  | _, [], results => results
  | 0, _ :: _, results => results
  | fuel + 1, st :: queue, results =>
    if opts.maxPathResults ≤ results.length then results
    else
      let rq := bfsStep opts g segments st results queue
      bfsLoop opts g segments fuel rq.2 rq.1

/-- The outer loop of `findMatchingPaths` over the matching start nodes;
results accumulate across start nodes, each start node getting a fresh
single-state queue and a fresh iteration budget. -/
def runStartNodes (opts : PatternMatcherOptions) (g : Graph) (segments : List PathSegment) :
    List Node → List Path → List Path
  | [], results => results
  | startNode :: rest, results =>
    let results1 := bfsLoop opts g segments 100000
      [{ currentNode := startNode
         currentPath := { nodes := [startNode], edges := [] }
         segmentIdx := 0, varHopCount := 0
         visitedInPath := [startNode.id] }] results
    runStartNodes opts g segments rest results1

/-- The canonical path string used for deduplication:
`joined(nodeIds)|joined(src-label-tgt)`. -/
def pathToString (p : Path) : String :=
  String.intercalate "," (p.nodes.map (fun n => n.id))
    ++ "|"
    ++ String.intercalate "," (p.edges.map (fun e => e.source ++ "-" ++ e.label ++ "-" ++ e.target))

/-- Deduplication backing `findMatchingPaths`: keep the first path for
each canonical string, in production order (a JS `Map` keyed by
`pathToString`, read back in insertion order). -/
def dedupPathsAux (seen : List String) : List Path → List Path
  | [] => []
  | p :: rest =>
    if seen.contains (pathToString p) then dedupPathsAux seen rest
    else p :: dedupPathsAux (seen ++ [pathToString p]) rest

/-- Deduplicate a result list by canonical path string. -/
def dedupPaths (results : List Path) : List Path :=
  dedupPathsAux [] results

/-- `findMatchingPaths` up to (but not including) the final
deduplication: find and filter the start nodes, return single-node
paths directly when there are no segments, otherwise run the BFS. -/
def findMatchingPathsRaw (opts : PatternMatcherOptions) (s : MatcherState) (g : Graph)
    (pattern : PathPattern) : List Path × MatcherState :=
  let ns := findMatchingNodes opts s g pattern.start
  let initialNodes :=
    match findEntry pattern.start.properties "id" with
    | some v => ns.1.filter (fun n => idMatchesValue n.id v)
    | none => ns.1
  if pattern.segments.isEmpty then
    (initialNodes.map (fun n => { nodes := [n], edges := [] }), ns.2)
  else
    (runStartNodes opts g pattern.segments initialNodes [], ns.2)

/-- `findMatchingPaths`: the BFS results are deduplicated; the
segment-free early return is not. -/
def findMatchingPaths (opts : PatternMatcherOptions) (s : MatcherState) (g : Graph)
    (pattern : PathPattern) : List Path × MatcherState :=
  let raw := findMatchingPathsRaw opts s g pattern
  if pattern.segments.isEmpty then raw
  else (dedupPaths raw.1, raw.2)


/-! ### General helper lemmas -/

/-- Strict equality on non-array values is propositional equality. -/
theorem jsStrictEq_iff_of_not_arr {a b : Value} (ha : a.isArr = false) :
    jsStrictEq a b = true ↔ a = b := by
  cases a <;> cases b <;> simp_all [jsStrictEq, Value.isArr]

/-- With type coercion disabled the coercion block falls through. -/
theorem valuesCoerce_off {opts : PatternMatcherOptions}
    (h : opts.enableTypeCoercion = false) (a e : Value) : valuesCoerce opts a e = none := by
  unfold valuesCoerce
  rw [h]
  rfl

theorem valuesMatch_scalar {opts : PatternMatcherOptions} {a b : Value}
    (hco : opts.enableTypeCoercion = false) (ha : a.isArr = false) :
    valuesMatch opts a b = jsStrictEq a b := by
  cases a with
  | arr items => simp [Value.isArr] at ha
  | str s =>
    simp only [valuesMatch, valuesCoerce_off hco]
    split <;> simp_all
  | num n =>
    simp only [valuesMatch, valuesCoerce_off hco]
    split <;> simp_all
  | bool v =>
    simp only [valuesMatch, valuesCoerce_off hco]
    split <;> simp_all
  | null =>
    simp only [valuesMatch, valuesCoerce_off hco]
    split <;> simp_all

/-- `valuesMatchSome` is an existential over the array's items. -/
theorem valuesMatchSome_iff {opts : PatternMatcherOptions} {expected : Value} :
    ∀ {items : List Value},
      valuesMatchSome opts items expected = true ↔
        ∃ i ∈ items, valuesMatch opts i expected = true
  | [] => by simp [valuesMatchSome]
  | x :: xs => by
    rw [valuesMatchSome, Bool.or_eq_true, valuesMatchSome_iff]
    simp

/-- Membership in an `if`-guarded one-element append. -/
theorem mem_ite_append {α : Type} {p : α} {c : Prop} [Decidable c] {l : List α} {x : α}
    (h : p ∈ (if c then l ++ [x] else l)) : p ∈ l ∨ p = x := by
  split at h
  · rcases List.mem_append.1 h with h | h
    · exact Or.inl h
    · exact Or.inr (List.mem_singleton.1 h)
  · exact Or.inl h

/-- A found node is one of the graph's nodes. -/
theorem Graph.getNode_mem {g : Graph} {id : NodeId} {n : Node}
    (h : g.getNode id = some n) : n ∈ g.nodes :=
  List.mem_of_find?_eq_some h

/-- A found node carries the id it was looked up by. -/
theorem Graph.getNode_id {g : Graph} {id : NodeId} {n : Node}
    (h : g.getNode id = some n) : n.id = id := by
  have := List.find?_some h
  simpa using this

/-- Nodes recovered from cached ids are nodes of the graph. -/
theorem mem_filterMap_getNode {g : Graph} {ids : List NodeId} {n : Node}
    (h : n ∈ ids.filterMap (fun id => g.getNode id)) : n ∈ g.nodes := by
  rcases List.mem_filterMap.1 h with ⟨id, _, hid⟩
  exact Graph.getNode_mem hid

/-! ### C10: array-valued properties match by membership -/

/-- C10: even with `enableTypeCoercion` disabled, a non-array required
value matches an array-valued actual property precisely when some item
of the array equals it (items being scalars, as the data model
prescribes for property arrays) — membership, not strict equality. -/
theorem valuesMatch_array_membership (opts : PatternMatcherOptions)
    (items : List Value) (expected : Value)
    (hco : opts.enableTypeCoercion = false)
    (hitems : ∀ i ∈ items, i.isArr = false)
    (hexp : expected.isArr = false) :
    valuesMatch opts (.arr items) expected = true ↔ ∃ i ∈ items, i = expected := by
  have harr : jsStrictEq (.arr items) expected = false := by
    cases expected <;> rfl
  have hred : valuesMatch opts (.arr items) expected = valuesMatchSome opts items expected := by
    simp only [valuesMatch, valuesCoerce_off hco, harr, hexp]
    rfl
  rw [hred, valuesMatchSome_iff]
  constructor
  · rintro ⟨i, hi, hm⟩
    refine ⟨i, hi, ?_⟩
    rw [valuesMatch_scalar hco (hitems i hi)] at hm
    exact (jsStrictEq_iff_of_not_arr (hitems i hi)).1 hm
  · rintro ⟨i, hi, rfl⟩
    refine ⟨i, hi, ?_⟩
    rw [valuesMatch_scalar hco (hitems i hi)]
    exact (jsStrictEq_iff_of_not_arr (hitems i hi)).2 rfl

/-- C10 witness: `["x", 42]` matched against required value `42` with
coercion disabled succeeds by membership. -/
theorem valuesMatch_array_membership_witness :
    (resolveOptions {}).enableTypeCoercion = false
    ∧ (valuesMatch (resolveOptions {}) (.arr [.str "x", .num 42]) (.num 42) = true
        ↔ ∃ i ∈ [Value.str "x", Value.num 42], i = Value.num 42) :=
  ⟨by decide,
   valuesMatch_array_membership (resolveOptions {}) [.str "x", .num 42] (.num 42)
     (by decide) (by decide) (by decide)⟩


/-! ### Concrete example data shared by witnesses and counterexamples -/

/-- An example node with label `N` and an empty property bag. -/
def exNode (i : String) : Node := { id := i, label := "N", data := some [] }

/-- An example edge with label `T` and an empty property bag. -/
def exEdge (s t : String) : Edge := { source := s, target := t, label := "T", data := some [] }

/-- The unconstrained node pattern `()`. -/
def exAnyNode : NodePattern := { var := none, labels := [], properties := [] }

/-- An outgoing relationship pattern with no type or properties and the
given hop bounds. -/
def exRel (mn mx : Option Nat) : RelationshipPattern :=
  { var := none, type := none, properties := [], direction := .outgoing,
    minHops := mn, maxHops := mx }

/-- The chain graph a→b→c. -/
def exChain : Graph := ⟨[exNode "a", exNode "b", exNode "c"], [exEdge "a" "b", exEdge "b" "c"]⟩

/-- The two-cycle graph a→b→a. -/
def exCycle : Graph := ⟨[exNode "a", exNode "b"], [exEdge "a" "b", exEdge "b" "a"]⟩

/-- A one-segment path pattern with the given hop bounds. -/
def exSeg1 (mn mx : Option Nat) : PathPattern :=
  { start := exAnyNode, segments := [{ relationship := exRel mn mx, node := exAnyNode }] }

/-- A segment-free path pattern. -/
def exNoSeg : PathPattern := { start := exAnyNode, segments := [] }

/-! ### C3: pattern labels against the property-bag `labels` array -/

/-- C3 counterexample: the node carries `labels: ["B"]` in its property
bag and the pattern requires label `B` (equal to that entry even under
case-sensitive comparison) with no other constraint, yet
`matchesNodePattern` returns `false` — `getNodeLabels` consults only the
primary label `A`, never the bag's `labels` array. -/
theorem matchesNodePattern_labels_array_counterexample :
    matchesNodePattern (resolveOptions { caseSensitiveLabels := some true })
      { id := "n1", label := "A", data := some [("labels", .arr [.str "B"])] }
      { var := none, labels := ["B"], properties := [] } = false := by
  decide

/-- A one-label list matches exactly when the normalized labels agree. -/
theorem labelMatches_singleton (opts : PatternMatcherOptions) (x req : String) :
    labelMatches opts [x] req = (normalizeLabel opts x == normalizeLabel opts req) := by
  simp [labelMatches]

/-- C3 amended: `matchesNodePattern` consults only the node's primary
label; it returns true exactly when every required label equals the
primary label after case normalization and, when property constraints
are present, they are satisfied. The `labels` array inside the property
bag plays no role in label matching. -/
theorem matchesNodePattern_primary_label_only (opts : PatternMatcherOptions)
    (node : Node) (pat : NodePattern) :
    matchesNodePattern opts node pat = true ↔
      ((∀ l ∈ pat.labels, normalizeLabel opts l = normalizeLabel opts node.label)
       ∧ (pat.properties = [] ∨ nodePropertiesMatch opts node pat.properties = true)) := by
  have hall : (pat.labels.all (fun req => labelMatches opts (getNodeLabels node) req) = true)
      ↔ ∀ l ∈ pat.labels, normalizeLabel opts l = normalizeLabel opts node.label := by
    rw [List.all_eq_true]
    constructor
    · intro h l hl
      have := h l hl
      rw [getNodeLabels, labelMatches_singleton] at this
      exact (beq_iff_eq.1 this).symm
    · intro h l hl
      rw [getNodeLabels, labelMatches_singleton]
      exact beq_iff_eq.2 (h l hl).symm
  unfold matchesNodePattern
  cases hA : pat.labels.all (fun req => labelMatches opts (getNodeLabels node) req) <;>
    cases hE : pat.labels.isEmpty <;>
      cases hP : pat.properties.isEmpty <;>
        simp_all [List.isEmpty_iff, List.isEmpty_eq_false_iff_exists_mem]

/-! ### C4: soundness of findMatchingNodes -/

/-- Nodes delivered by the label index are nodes of the graph (even from
a stale cache entry, because every cached id is resolved through
`getNode`). -/
theorem getNodesByLabel_mem {opts : PatternMatcherOptions} {s : MatcherState} {g : Graph}
    {label : String} : ∀ n ∈ (getNodesByLabel opts s g label).1, n ∈ g.nodes := by
  intro n hn
  simp only [getNodesByLabel] at hn
  split at hn
  · exact mem_filterMap_getNode hn
  · exact mem_filterMap_getNode hn

/-- C4: every node returned by `findMatchingNodes` satisfies
`matchesNodePattern` and is present in the graph. -/
theorem findMatchingNodes_sound (opts : PatternMatcherOptions) (s : MatcherState)
    (g : Graph) (pat : NodePattern) :
    ∀ n ∈ (findMatchingNodes opts s g pat).1,
      matchesNodePattern opts n pat = true ∧ n ∈ g.nodes := by
  intro n hn
  unfold findMatchingNodes at hn
  split at hn
  · rw [Graph.findNodes] at hn
    simp only [List.mem_filter] at hn
    exact ⟨hn.2, hn.1⟩
  · simp only [List.mem_filter] at hn
    exact ⟨hn.2, getNodesByLabel_mem n hn.1⟩

/-- C4 witness: on a one-node graph and the unconstrained pattern, the
returned node matches and is in the graph. -/
theorem findMatchingNodes_sound_witness :
    matchesNodePattern (resolveOptions {}) (exNode "a") exAnyNode = true
    ∧ exNode "a" ∈ (⟨[exNode "a"], []⟩ : Graph).nodes :=
  findMatchingNodes_sound (resolveOptions {}) .empty ⟨[exNode "a"], []⟩ exAnyNode
    (exNode "a") (by decide)

/-! ### C2: which segments count as variable-length -/

/-- Modelled from the spec: "Let minHops = relPattern.minHops ?? 1,
maxHops = relPattern.maxHops ?? minHops. The segment is variable iff
(minHops, maxHops) ≠ (1, 1)." -/
def specSegmentIsVariable (relPat : RelationshipPattern) : Bool :=
  !(relPat.minHops.getD 1 == 1 && relPat.maxHops.getD (relPat.minHops.getD 1) == 1)

/-- C2 counterexample: for a relationship pattern with both hop fields
unspecified the code treats the segment as variable-length while the
spec formula says fixed, and observably a single such segment matches a
two-edge path on the chain a→b→c instead of exactly one hop. -/
theorem segmentIsVariable_counterexample :
    segmentIsVariable (exRel none none) = true
    ∧ specSegmentIsVariable (exRel none none) = false
    ∧ ∃ p ∈ (findMatchingPaths (resolveOptions {}) .empty exChain (exSeg1 none none)).1,
        p.edges.length = 2 := by
  decide

/-- The spec's variability formula with the default for an unspecified
`maxHops` corrected from "minHops" to "unbounded". -/
def specSegmentIsVariableAmended (relPat : RelationshipPattern) : Bool :=
  match relPat.maxHops with
  | some m => !(relPat.minHops.getD 1 == 1 && m == 1)
  | none => true

/-- C2 amended: a segment is variable-length iff it is not exactly
`minHops ?? 1 = 1` with an explicitly specified `maxHops = 1`; in
particular an unspecified `maxHops` always makes the segment
variable-length (capped at `maxPathDepth` during traversal). -/
theorem segmentIsVariable_amended (relPat : RelationshipPattern) :
    segmentIsVariable relPat = specSegmentIsVariableAmended relPat := by
  unfold segmentIsVariable specSegmentIsVariableAmended
  cases relPat.maxHops <;> simp

/-! ### C9: pattern enrichment from bindings -/

/-- C9 counterexample: the pattern's start variable `x` is bound to a
node in the context, yet the enriched pattern gains no `id` property
constraint, because the bound node's id is the empty string, which the
source's JS-truthiness guard `boundNode.id` rejects. -/
theorem enrichPatternWithBindings_counterexample :
    BindingContext.get [("x", .bnode { id := "", label := "L", data := some [] })] "x"
        = some (.bnode { id := "", label := "L", data := some [] })
    ∧ findEntry (enrichPatternWithBindings
          { start := { var := some "x", labels := [], properties := [] }, segments := [] }
          [("x", .bnode { id := "", label := "L", data := some [] })]).start.properties "id"
        = none := by
  decide

/-- Modelled from the spec (amended wording): a node pattern whose
variable is a non-empty name bound in the context to a node with a
non-empty id gains an `id` property constraint equal to that node's id;
every other node pattern is returned unchanged. -/
def specEnrichNode (np : NodePattern) (b : BindingContext) : NodePattern :=
  match np.var with
  | some v =>
    match b.get v with
    | some (.bnode n) =>
      if v ≠ "" ∧ n.id ≠ "" then
        { np with properties := setProp np.properties "id" (.str n.id) }
      else np
    | _ => np
  | none => np

/-- Per-node-pattern enrichment agrees with the amended description. -/
theorem enrichNodePattern_eq_spec (np : NodePattern) (b : BindingContext) :
    enrichNodePattern np b = specEnrichNode np b := by
  unfold enrichNodePattern specEnrichNode BindingContext.has BindingContext.get boundNodeId
  cases np.var with
  | none => rfl
  | some v =>
    cases hf : findEntry b v with
    | none => simp [hf]
    | some bv =>
      cases bv with
      | bnode n =>
        by_cases hv : v = ""
        · subst hv
          simp [hf]
        · by_cases hid : n.id = "" <;> simp [hf, hv, hid]
      | bedge e => simp [hf]
      | bvalue w => simp [hf]

/-- C9 amended: `enrichPatternWithBindings` returns the input pattern
with the start node pattern and each segment's node pattern enriched as
in `specEnrichNode` (an `id` constraint for every non-empty variable
bound to a node with a non-empty id), and each segment's relationship
pattern unchanged; being a pure function of the model, it cannot mutate
its input. -/
theorem enrichPatternWithBindings_spec (pat : PathPattern) (b : BindingContext) :
    (enrichPatternWithBindings pat b).start = specEnrichNode pat.start b
    ∧ (enrichPatternWithBindings pat b).segments
        = pat.segments.map (fun seg =>
            { relationship := seg.relationship, node := specEnrichNode seg.node b }) := by
  unfold enrichPatternWithBindings
  exact ⟨enrichNodePattern_eq_spec _ _, by simp [enrichNodePattern_eq_spec]⟩



/-! ### BFS invariant machinery -/

/-- Adding preserves prior membership in the visited set. -/
theorem visitedAdd_contains {l : List NodeId} {x : NodeId} (y : NodeId)
    (h : l.contains x = true) : (visitedAdd l y).contains x = true := by
  unfold visitedAdd
  split
  · exact h
  · rw [List.elem_iff] at h ⊢
    exact List.mem_append_left _ h

/-- The added id is in the visited set. -/
theorem visitedAdd_contains_self (l : List NodeId) (y : NodeId) :
    (visitedAdd l y).contains y = true := by
  unfold visitedAdd
  split
  next h => exact h
  next h =>
    rw [List.elem_iff]
    exact List.mem_append_right _ (List.mem_singleton.2 rfl)

theorem processEdges_closure (opts : PatternMatcherOptions) (g : Graph) (st : QueueState)
    (relPat : RelationshipPattern) (targetPat : NodePattern)
    (minHops maxTrav : Nat) (isVar isFin : Bool)
    (P : List Path → Prop) (Q : List QueueState → Prop)
    (hpush : ∀ (l : List Path) (n : Node) (e : Edge), P l →
        l.length < opts.maxPathResults →
        P (l ++ [{ nodes := st.currentPath.nodes ++ [n]
                   edges := st.currentPath.edges ++ [e] }]))
    (hext : ∀ (q : List QueueState) (n : Node) (e : Edge), Q q →
        st.visitedInPath.contains n.id = false →
        st.varHopCount + 1 < maxTrav →
        Q (q ++ [{ currentNode := n
                   currentPath := { nodes := st.currentPath.nodes ++ [n]
                                    edges := st.currentPath.edges ++ [e] }
                   segmentIdx := st.segmentIdx
                   varHopCount := st.varHopCount + 1
                   visitedInPath := visitedAdd st.visitedInPath n.id }]))
    (hadv : ∀ (q : List QueueState) (n : Node) (e : Edge), Q q →
        st.visitedInPath.contains n.id = false →
        isFin = false →
        Q (q ++ [{ currentNode := n
                   currentPath := { nodes := st.currentPath.nodes ++ [n]
                                    edges := st.currentPath.edges ++ [e] }
                   segmentIdx := st.segmentIdx + 1
                   varHopCount := 0
                   visitedInPath := visitedAdd st.visitedInPath n.id }])) :
    ∀ (edges : List Edge) (results : List Path) (queue : List QueueState),
      P results → Q queue →
      P (processEdges opts g st relPat targetPat minHops maxTrav isVar isFin
          edges (results, queue)).1
      ∧ Q (processEdges opts g st relPat targetPat minHops maxTrav isVar isFin
          edges (results, queue)).2
  | [], results, queue => by
    intro hP hQ
    rw [processEdges]
    exact ⟨hP, hQ⟩
  | edge :: rest, results, queue => by
    intro hP hQ
    have ih := processEdges_closure opts g st relPat targetPat minHops maxTrav isVar isFin
      P Q hpush hext hadv rest
    simp only [processEdges]
    split
    · exact ih results queue hP hQ
    next nb hnb =>
      split
      · exact ih results queue hP hQ
      next =>
        split
        · exact ih results queue hP hQ
        next =>
          split
          next hc1 =>
            rw [Bool.and_eq_true] at hc1
            have hP1 := hpush results nb edge hP (of_decide_eq_true hc1.2)
            split
            · exact ⟨hP1, hQ⟩
            next =>
              split
              · exact ih _ _ hP1 hQ
              next =>
                split
                next hfull =>
                  refine ⟨hP1, ?_⟩
                  split
                  next hcA =>
                    simp only [Bool.and_eq_true, Bool.not_eq_true', decide_eq_true_eq] at hcA
                    split
                    next hcE =>
                      simp only [Bool.and_eq_true, Bool.not_eq_true',
                        decide_eq_true_eq] at hcE
                      exact hadv _ nb edge (hext _ nb edge hQ hcE.2 hcE.1.2) hcA.2 hcA.1.2
                    next => exact hadv _ nb edge hQ hcA.2 hcA.1.2
                  next =>
                    split
                    next hcE =>
                      simp only [Bool.and_eq_true, Bool.not_eq_true',
                        decide_eq_true_eq] at hcE
                      exact hext _ nb edge hQ hcE.2 hcE.1.2
                    next => exact hQ
                next =>
                  refine ih _ _ hP1 ?_
                  split
                  next hcA =>
                    simp only [Bool.and_eq_true, Bool.not_eq_true', decide_eq_true_eq] at hcA
                    split
                    next hcE =>
                      simp only [Bool.and_eq_true, Bool.not_eq_true',
                        decide_eq_true_eq] at hcE
                      exact hadv _ nb edge (hext _ nb edge hQ hcE.2 hcE.1.2) hcA.2 hcA.1.2
                    next => exact hadv _ nb edge hQ hcA.2 hcA.1.2
                  next =>
                    split
                    next hcE =>
                      simp only [Bool.and_eq_true, Bool.not_eq_true',
                        decide_eq_true_eq] at hcE
                      exact hext _ nb edge hQ hcE.2 hcE.1.2
                    next => exact hQ
          next =>
            split
            · exact ⟨hP, hQ⟩
            next =>
              split
              · exact ih _ _ hP hQ
              next =>
                split
                next hfull =>
                  refine ⟨hP, ?_⟩
                  split
                  next hcA =>
                    simp only [Bool.and_eq_true, Bool.not_eq_true', decide_eq_true_eq] at hcA
                    split
                    next hcE =>
                      simp only [Bool.and_eq_true, Bool.not_eq_true',
                        decide_eq_true_eq] at hcE
                      exact hadv _ nb edge (hext _ nb edge hQ hcE.2 hcE.1.2) hcA.2 hcA.1.2
                    next => exact hadv _ nb edge hQ hcA.2 hcA.1.2
                  next =>
                    split
                    next hcE =>
                      simp only [Bool.and_eq_true, Bool.not_eq_true',
                        decide_eq_true_eq] at hcE
                      exact hext _ nb edge hQ hcE.2 hcE.1.2
                    next => exact hQ
                next =>
                  refine ih _ _ hP ?_
                  split
                  next hcA =>
                    simp only [Bool.and_eq_true, Bool.not_eq_true', decide_eq_true_eq] at hcA
                    split
                    next hcE =>
                      simp only [Bool.and_eq_true, Bool.not_eq_true',
                        decide_eq_true_eq] at hcE
                      exact hadv _ nb edge (hext _ nb edge hQ hcE.2 hcE.1.2) hcA.2 hcA.1.2
                    next => exact hadv _ nb edge hQ hcA.2 hcA.1.2
                  next =>
                    split
                    next hcE =>
                      simp only [Bool.and_eq_true, Bool.not_eq_true',
                        decide_eq_true_eq] at hcE
                      exact hext _ nb edge hQ hcE.2 hcE.1.2
                    next => exact hQ


/-- C1's per-path predicate: all node ids except possibly the final one
are pairwise distinct. -/
def pathAlmostNodup (p : Path) : Prop :=
  ((p.nodes.map (fun n => n.id)).dropLast).Nodup

/-- BFS state invariant: the current path's node ids are distinct and
every one of them is recorded in the visited set. -/
def goodState (st : QueueState) : Prop :=
  (st.currentPath.nodes.map (fun n => n.id)).Nodup
  ∧ ∀ n ∈ st.currentPath.nodes, st.visitedInPath.contains n.id = true

/-- Extending a good state by an unvisited node keeps ids distinct and
the visited set complete. -/
theorem goodState_extend {st : QueueState} (hst : goodState st) {n : Node}
    (hn : st.visitedInPath.contains n.id = false) :
    ((st.currentPath.nodes ++ [n]).map (fun m => m.id)).Nodup
    ∧ ∀ m ∈ st.currentPath.nodes ++ [n],
        (visitedAdd st.visitedInPath n.id).contains m.id = true := by
  have hnotin : n.id ∉ st.currentPath.nodes.map (fun m => m.id) := by
    intro hmem
    rcases List.mem_map.1 hmem with ⟨m, hm, hid⟩
    have := hst.2 m hm
    rw [hid] at this
    rw [this] at hn
    cases hn
  constructor
  · rw [List.map_append]
    simp only [List.map_cons, List.map_nil]
    rw [List.nodup_append]
    refine ⟨hst.1, List.nodup_singleton _, ?_⟩
    intro x hx hx'
    rw [List.mem_singleton] at hx'
    rw [hx'] at hx
    exact hnotin hx
  · intro m hm
    rcases List.mem_append.1 hm with hm | hm
    · exact visitedAdd_contains _ (hst.2 m hm)
    · rw [List.mem_singleton] at hm
      rw [hm]
      exact visitedAdd_contains_self _ _

/-- One BFS iteration preserves `pathAlmostNodup` of all results and
`goodState` of all queue states. -/
theorem bfsStep_goodState (opts : PatternMatcherOptions) (g : Graph)
    (segments : List PathSegment) (st : QueueState) (results : List Path)
    (queue : List QueueState)
    (hst : goodState st)
    (hQ : ∀ x ∈ queue, goodState x)
    (hR : ∀ p ∈ results, pathAlmostNodup p) :
    (∀ p ∈ (bfsStep opts g segments st results queue).1, pathAlmostNodup p)
    ∧ (∀ x ∈ (bfsStep opts g segments st results queue).2, goodState x) := by
  unfold bfsStep
  split
  · exact ⟨hR, hQ⟩
  · split
    · exact ⟨hR, hQ⟩
    · refine processEdges_closure opts g st _ _ _ _ _ _
        (fun l => ∀ p ∈ l, pathAlmostNodup p) (fun q => ∀ x ∈ q, goodState x)
        ?_ ?_ ?_ _ results queue hR hQ
      · intro l n e hl _ p hp
        rcases List.mem_append.1 hp with hp | hp
        · exact hl p hp
        · rw [List.mem_singleton] at hp
          subst hp
          unfold pathAlmostNodup
          simp only [List.map_append, List.map_cons, List.map_nil]
          rw [List.dropLast_concat]
          exact hst.1
      · intro q n e hq hcont _ x hx
        rcases List.mem_append.1 hx with hx | hx
        · exact hq x hx
        · rw [List.mem_singleton] at hx
          subst hx
          exact goodState_extend hst hcont
      · intro q n e hq hcont _ x hx
        rcases List.mem_append.1 hx with hx | hx
        · exact hq x hx
        · rw [List.mem_singleton] at hx
          subst hx
          exact goodState_extend hst hcont


/-- Generic preservation through the BFS while-loop: any per-path
property and per-state property preserved by one step hold for all
results of the loop. -/
theorem bfsLoop_closure (opts : PatternMatcherOptions) (g : Graph)
    (segments : List PathSegment) (P : Path → Prop) (S : QueueState → Prop)
    (hstep : ∀ st results queue, S st → (∀ x ∈ queue, S x) → (∀ p ∈ results, P p) →
        (∀ p ∈ (bfsStep opts g segments st results queue).1, P p)
        ∧ (∀ x ∈ (bfsStep opts g segments st results queue).2, S x)) :
    ∀ (fuel : Nat) (queue : List QueueState) (results : List Path),
      (∀ x ∈ queue, S x) → (∀ p ∈ results, P p) →
      ∀ p ∈ bfsLoop opts g segments fuel queue results, P p
  | fuel, [], results => by
    intro _ hR
    rw [bfsLoop]
    exact hR
  | 0, x :: q, results => by
    intro _ hR
    rw [bfsLoop]
    exact hR
  | fuel + 1, st :: queue, results => by
    intro hS hR
    simp only [bfsLoop]
    split
    · exact hR
    · have hstep1 := hstep st results queue (hS st (List.mem_cons_self st queue))
        (fun x hx => hS x (List.mem_cons_of_mem st hx)) hR
      exact bfsLoop_closure opts g segments P S hstep fuel _ _ hstep1.2 hstep1.1

/-- Generic preservation through the loop over start nodes. -/
theorem runStartNodes_closure (opts : PatternMatcherOptions) (g : Graph)
    (segments : List PathSegment) (P : Path → Prop) (S : QueueState → Prop)
    (hstep : ∀ st results queue, S st → (∀ x ∈ queue, S x) → (∀ p ∈ results, P p) →
        (∀ p ∈ (bfsStep opts g segments st results queue).1, P p)
        ∧ (∀ x ∈ (bfsStep opts g segments st results queue).2, S x))
    (hinit : ∀ n : Node, S { currentNode := n
                             currentPath := { nodes := [n], edges := [] }
                             segmentIdx := 0, varHopCount := 0
                             visitedInPath := [n.id] }) :
    ∀ (starts : List Node) (results : List Path),
      (∀ p ∈ results, P p) →
      ∀ p ∈ runStartNodes opts g segments starts results, P p
  | [], results => by
    intro hR
    rw [runStartNodes]
    exact hR
  | startNode :: rest, results => by
    intro hR
    simp only [runStartNodes]
    refine runStartNodes_closure opts g segments P S hstep hinit rest _ ?_
    refine bfsLoop_closure opts g segments P S hstep 100000 _ _ ?_ hR
    intro x hx
    rw [List.mem_singleton] at hx
    subst hx
    exact hinit startNode

/-- Deduplication only discards paths: the output is a sublist. -/
theorem dedupPathsAux_sublist : ∀ (seen : List String) (l : List Path),
    (dedupPathsAux seen l).Sublist l
  | seen, [] => by
    rw [dedupPathsAux]
  | seen, p :: rest => by
    rw [dedupPathsAux]
    split
    · exact (dedupPathsAux_sublist seen rest).cons p
    · exact (dedupPathsAux_sublist (seen ++ [pathToString p]) rest).cons₂ p

/-- Membership in the deduplicated results implies membership in the
raw results. -/
theorem dedupPaths_subset {l : List Path} {p : Path} (h : p ∈ dedupPaths l) : p ∈ l :=
  (dedupPathsAux_sublist [] l).subset h

/-- C1 counterexample: on the two-cycle a→b→a, the variable-length
pattern `()-[*1..2]->()` returns the path a,b,a, in which node a appears
twice — the BFS's cycle check guards extending and advancing but not
emitting a completed path. -/
theorem findMatchingPaths_cycle_counterexample :
    ∃ p ∈ (findMatchingPaths (resolveOptions {}) .empty exCycle
        (exSeg1 (some 1) (some 2))).1,
      ¬ (p.nodes.map (fun n => n.id)).Nodup := by
  decide

/-- C1 amended: on every path returned by `findMatchingPaths`, the node
ids are pairwise distinct except that the final node may repeat an
earlier node of the same path (completed paths are emitted without the
cycle check that guards continued exploration). -/
theorem findMatchingPaths_almost_nodup (opts : PatternMatcherOptions) (s : MatcherState)
    (g : Graph) (pat : PathPattern) :
    ∀ p ∈ (findMatchingPaths opts s g pat).1, pathAlmostNodup p := by
  intro p hp
  simp only [findMatchingPaths, findMatchingPathsRaw] at hp
  split at hp
  · -- no segments: single-node paths
    rcases List.mem_map.1 hp with ⟨n, _, rfl⟩
    unfold pathAlmostNodup
    simp
  · have hp' := dedupPaths_subset hp
    refine runStartNodes_closure opts g pat.segments pathAlmostNodup goodState
      (fun st results queue hst hQ hR => bfsStep_goodState opts g pat.segments st
        results queue hst hQ hR)
      ?_ _ [] (by simp) p hp'
    intro n
    constructor
    · simp
    · intro m hm
      rw [List.mem_singleton] at hm
      subst hm
      rw [List.elem_iff]
      exact List.mem_singleton.2 rfl

/-- C1 amended witness: the single path returned for a segment-free
pattern on a one-node graph has distinct non-final ids. -/
theorem findMatchingPaths_almost_nodup_witness :
    pathAlmostNodup { nodes := [exNode "a"], edges := [] } :=
  findMatchingPaths_almost_nodup (resolveOptions {}) .empty ⟨[exNode "a"], []⟩ exNoSeg
    { nodes := [exNode "a"], edges := [] } (by decide)


/-! ### C6: the result-count bound -/

/-- One BFS iteration never pushes the result list past
`maxPathResults`. -/
theorem bfsStep_length (opts : PatternMatcherOptions) (g : Graph)
    (segments : List PathSegment) (st : QueueState) (results : List Path)
    (queue : List QueueState) (h : results.length ≤ opts.maxPathResults) :
    (bfsStep opts g segments st results queue).1.length ≤ opts.maxPathResults := by
  unfold bfsStep
  split
  · exact h
  · split
    · exact h
    · refine (processEdges_closure opts g st _ _ _ _ _ _
        (fun l => l.length ≤ opts.maxPathResults) (fun _ => True)
        ?_ (fun _ _ _ _ _ _ => trivial) (fun _ _ _ _ _ _ => trivial)
        _ results queue h trivial).1
      intro l n e hl hlt
      rw [List.length_append, List.length_singleton]
      omega

/-- The BFS while-loop keeps the result count bounded. -/
theorem bfsLoop_length (opts : PatternMatcherOptions) (g : Graph)
    (segments : List PathSegment) :
    ∀ (fuel : Nat) (queue : List QueueState) (results : List Path),
      results.length ≤ opts.maxPathResults →
      (bfsLoop opts g segments fuel queue results).length ≤ opts.maxPathResults
  | _, [], results => by
    intro h
    rw [bfsLoop]
    exact h
  | 0, _ :: _, results => by
    intro h
    rw [bfsLoop]
    exact h
  | fuel + 1, st :: queue, results => by
    intro h
    simp only [bfsLoop]
    split
    · exact h
    · exact bfsLoop_length opts g segments fuel _ _
        (bfsStep_length opts g segments st results queue h)

/-- The loop over start nodes keeps the result count bounded. -/
theorem runStartNodes_length (opts : PatternMatcherOptions) (g : Graph)
    (segments : List PathSegment) :
    ∀ (starts : List Node) (results : List Path),
      results.length ≤ opts.maxPathResults →
      (runStartNodes opts g segments starts results).length ≤ opts.maxPathResults
  | [], results => by
    intro h
    rw [runStartNodes]
    exact h
  | startNode :: rest, results => by
    intro h
    simp only [runStartNodes]
    exact runStartNodes_length opts g segments rest _
      (bfsLoop_length opts g segments 100000 _ _ h)

/-- C6 counterexample: with `maxPathResults := 1`, a segment-free
pattern on a two-node graph returns two paths — the early return for
patterns with no segments bypasses the result cap entirely. -/
theorem findMatchingPaths_maxPathResults_counterexample :
    (resolveOptions { maxPathResults := some 1 }).maxPathResults = 1
    ∧ 1 < ((findMatchingPaths (resolveOptions { maxPathResults := some 1 }) .empty exCycle
        exNoSeg).1).length := by
  decide

/-- C6 amended: for every pattern with at least one segment,
`findMatchingPaths` returns at most `maxPathResults` paths (patterns
with no segments return one path per matching start node, untruncated),
and an unsupplied `maxPathResults` defaults to 1000. -/
theorem findMatchingPaths_results_bound :
    (∀ (opts : PatternMatcherOptions) (s : MatcherState) (g : Graph) (pat : PathPattern),
        pat.segments ≠ [] →
        ((findMatchingPaths opts s g pat).1).length ≤ opts.maxPathResults)
    ∧ (resolveOptions {}).maxPathResults = 1000 := by
  constructor
  · intro opts s g pat hne
    have hE : pat.segments.isEmpty = false := by
      cases hseg : pat.segments
      · exact absurd hseg hne
      · rfl
    simp only [findMatchingPaths, findMatchingPathsRaw, hE, Bool.false_eq_true, if_false]
    calc (dedupPaths (runStartNodes opts g pat.segments _ [])).length
        ≤ (runStartNodes opts g pat.segments _ []).length :=
          (dedupPathsAux_sublist [] _).length_le
      _ ≤ opts.maxPathResults := runStartNodes_length opts g pat.segments _ [] (by simp)
  · rfl

/-- C6 witness: a one-segment query on the chain graph stays within the
default cap. -/
theorem findMatchingPaths_results_bound_witness :
    ((findMatchingPaths (resolveOptions {}) .empty exChain (exSeg1 none none)).1).length
      ≤ (resolveOptions {}).maxPathResults :=
  findMatchingPaths_results_bound.1 (resolveOptions {}) .empty exChain (exSeg1 none none)
    (by decide)


/-! ### C5: hop bounds on returned paths -/

/-- One BFS iteration only emits paths one edge longer than a path that
was still below `maxPathDepth`. -/
theorem bfsStep_depth (opts : PatternMatcherOptions) (g : Graph)
    (segments : List PathSegment) (st : QueueState) (results : List Path)
    (queue : List QueueState)
    (_hst : True) (_hQ : ∀ x ∈ queue, True)
    (hR : ∀ p ∈ results, p.edges.length ≤ opts.maxPathDepth) :
    (∀ p ∈ (bfsStep opts g segments st results queue).1,
        p.edges.length ≤ opts.maxPathDepth)
    ∧ (∀ x ∈ (bfsStep opts g segments st results queue).2, True) := by
  unfold bfsStep
  split
  · exact ⟨hR, fun _ _ => trivial⟩
  · split
    · exact ⟨hR, fun _ _ => trivial⟩
    next hdepth =>
      refine processEdges_closure opts g st _ _ _ _ _ _
        (fun l => ∀ p ∈ l, p.edges.length ≤ opts.maxPathDepth) (fun q => ∀ x ∈ q, True)
        ?_ (fun _ _ _ hq _ _ => by simp) (fun _ _ _ hq _ _ => by simp)
        _ results queue hR (by simp)
      intro l n e hl _ p hp
      rcases List.mem_append.1 hp with hp | hp
      · exact hl p hp
      · rw [List.mem_singleton] at hp
        subst hp
        simp only [List.length_append, List.length_singleton]
        omega

/-- The per-segment hop invariant for a single-segment pattern with
`maxHops = h`: the state is on segment 0, its hop counter equals the
path length, and it is 0 or strictly below `min h maxPathDepth`. -/
def hopBoundState (h depth : Nat) (st : QueueState) : Prop :=
  st.segmentIdx = 0
  ∧ st.varHopCount = st.currentPath.edges.length
  ∧ (st.varHopCount = 0 ∨ st.varHopCount < min h depth)

/-- One BFS iteration of a single-segment pattern with `maxHops = h ≥ 1`
emits only paths of at most `h` edges and preserves the hop invariant. -/
theorem bfsStep_hopBound (opts : PatternMatcherOptions) (g : Graph)
    (relPat : RelationshipPattern) (nodePat : NodePattern) (st : QueueState)
    (results : List Path) (queue : List QueueState) (h : Nat)
    (hmax : relPat.maxHops = some h) (hh : 1 ≤ h)
    (hst : hopBoundState h opts.maxPathDepth st)
    (hQ : ∀ x ∈ queue, hopBoundState h opts.maxPathDepth x)
    (hR : ∀ p ∈ results, p.edges.length ≤ h) :
    (∀ p ∈ (bfsStep opts g [{ relationship := relPat, node := nodePat }] st
        results queue).1, p.edges.length ≤ h)
    ∧ (∀ x ∈ (bfsStep opts g [{ relationship := relPat, node := nodePat }] st
        results queue).2, hopBoundState h opts.maxPathDepth x) := by
  have htrav : maxHopsTraversal opts relPat = min h opts.maxPathDepth := by
    rw [maxHopsTraversal, hmax]
  unfold bfsStep
  rw [hst.1]
  simp only [List.getElem?_cons_zero]
  split
  · exact ⟨hR, hQ⟩
  next hdepth =>
    refine processEdges_closure opts g st _ _ _ _ _ _
      (fun l => ∀ p ∈ l, p.edges.length ≤ h)
      (fun q => ∀ x ∈ q, hopBoundState h opts.maxPathDepth x)
      ?_ ?_ ?_ _ results queue hR hQ
    · intro l n e hl _ p hp
      rcases List.mem_append.1 hp with hp | hp
      · exact hl p hp
      · rw [List.mem_singleton] at hp
        subst hp
        simp only [List.length_append, List.length_singleton]
        rcases hst.2.2 with h0 | hlt
        · rw [← hst.2.1, h0]
          omega
        · have := Nat.min_le_left h opts.maxPathDepth
          rw [← hst.2.1]
          omega
    · intro q n e hq hcont hlt x hx
      rcases List.mem_append.1 hx with hx | hx
      · exact hq x hx
      · rw [List.mem_singleton] at hx
        subst hx
        rw [htrav] at hlt
        refine ⟨hst.1, ?_, Or.inr hlt⟩
        simp only [List.length_append, List.length_singleton]
        rw [hst.2.1]
    · intro q n e hq hcont hfin x hx
      exfalso
      rw [decide_eq_false_iff_not] at hfin
      exact hfin (by simp)

/-- C5 counterexample: the pattern's relationship carries `maxHops = 0`,
yet the one-edge path a→b is returned — the first hop of a segment is
taken before the hop cap is consulted, so a variable segment always
contributes at least one edge when it completes. -/
theorem findMatchingPaths_maxHops_counterexample :
    (exRel none (some 0)).maxHops = some 0
    ∧ ∃ p ∈ (findMatchingPaths (resolveOptions {}) .empty
        ⟨[exNode "a", exNode "b"], [exEdge "a" "b"]⟩ (exSeg1 none (some 0))).1,
      0 < p.edges.length := by
  decide

/-- C5 amended: every returned path has at most `maxPathDepth` edges in
total; and for a pattern with a single segment carrying
`maxHops = h ≥ 1`, every returned path has at most `h` edges. -/
theorem findMatchingPaths_hop_bounds :
    (∀ (opts : PatternMatcherOptions) (s : MatcherState) (g : Graph) (pat : PathPattern),
        ∀ p ∈ (findMatchingPaths opts s g pat).1, p.edges.length ≤ opts.maxPathDepth)
    ∧ (∀ (opts : PatternMatcherOptions) (s : MatcherState) (g : Graph)
        (startPat : NodePattern) (relPat : RelationshipPattern) (nodePat : NodePattern)
        (h : Nat), relPat.maxHops = some h → 1 ≤ h →
        ∀ p ∈ (findMatchingPaths opts s g
            { start := startPat
              segments := [{ relationship := relPat, node := nodePat }] }).1,
          p.edges.length ≤ h) := by
  constructor
  · intro opts s g pat p hp
    simp only [findMatchingPaths, findMatchingPathsRaw] at hp
    split at hp
    · rcases List.mem_map.1 hp with ⟨n, _, rfl⟩
      simp
    · have hp' := dedupPaths_subset hp
      refine runStartNodes_closure opts g pat.segments
        (fun p => p.edges.length ≤ opts.maxPathDepth) (fun _ => True)
        (fun st results queue _ hQ hR =>
          bfsStep_depth opts g pat.segments st results queue trivial hQ hR)
        (fun _ => trivial) _ [] (by simp) p hp'
  · intro opts s g startPat relPat nodePat h hmax hh p hp
    simp only [findMatchingPaths, findMatchingPathsRaw] at hp
    split at hp
    next hempty => simp at hempty
    next =>
      have hp' := dedupPaths_subset hp
      refine runStartNodes_closure opts g [{ relationship := relPat, node := nodePat }]
        (fun p => p.edges.length ≤ h) (hopBoundState h opts.maxPathDepth)
        (fun st results queue hst hQ hR =>
          bfsStep_hopBound opts g relPat nodePat st results queue h hmax hh hst hQ hR)
        ?_ _ [] (by simp) p hp'
      intro n
      exact ⟨rfl, rfl, Or.inl rfl⟩

/-- C5 witness: on the two-cycle with `*1..2`, a returned path respects
both the depth cap and the per-segment hop bound `h = 2`. -/
theorem findMatchingPaths_hop_bounds_witness :
    ({ nodes := [exNode "a", exNode "b"], edges := [exEdge "a" "b"] } : Path).edges.length
       ≤ (resolveOptions {}).maxPathDepth
    ∧ ({ nodes := [exNode "a", exNode "b"], edges := [exEdge "a" "b"] } : Path).edges.length
       ≤ 2 :=
  ⟨findMatchingPaths_hop_bounds.1 (resolveOptions {}) .empty exCycle
      (exSeg1 (some 1) (some 2)) _ (by decide),
   findMatchingPaths_hop_bounds.2 (resolveOptions {}) .empty exCycle exAnyNode
      (exRel (some 1) (some 2)) exAnyNode 2 (by decide) (by decide) _ (by decide)⟩


/-! ### C7: deduplication by canonical string -/

/-- The canonical string of a single-node path. -/
theorem pathToString_singleton (n : Node) :
    pathToString { nodes := [n], edges := [] } = n.id ++ "|" := by
  have h1 : String.intercalate "," [n.id] = n.id := rfl
  have h2 : String.intercalate "," ([] : List String) = "" := rfl
  unfold pathToString
  simp only [List.map_cons, List.map_nil, h1, h2]
  rw [String.append_empty]

/-- Appending a fixed suffix to strings is injective. -/
theorem append_bar_injective : Function.Injective (fun i : String => i ++ "|") := by
  intro x y h
  simp only at h
  have hd := congrArg String.data h
  simp only [String.data_append] at hd
  exact String.ext (List.append_cancel_right hd)

/-- The deduplicated list has pairwise-distinct canonical strings, none
of them previously seen. -/
theorem dedupPathsAux_nodup_strings : ∀ (seen : List String) (l : List Path),
    ((dedupPathsAux seen l).map pathToString).Nodup
    ∧ ∀ p ∈ dedupPathsAux seen l, pathToString p ∉ seen
  | seen, [] => by
    rw [dedupPathsAux]
    exact ⟨List.nodup_nil, by simp⟩
  | seen, p :: rest => by
    rw [dedupPathsAux]
    split
    next h => exact dedupPathsAux_nodup_strings seen rest
    next h =>
      have ih := dedupPathsAux_nodup_strings (seen ++ [pathToString p]) rest
      rw [List.elem_iff] at h
      constructor
      · rw [List.map_cons, List.nodup_cons]
        refine ⟨?_, ih.1⟩
        intro hmem
        rcases List.mem_map.1 hmem with ⟨q, hq, hqs⟩
        exact ih.2 q hq (List.mem_append_right _ (List.mem_singleton.2 hqs))
      · intro q hq
        rcases List.mem_cons.1 hq with rfl | hq'
        · exact h
        · intro hmem
          exact ih.2 q hq' (List.mem_append_left _ hmem)

/-- Deduplication is the identity on a list whose canonical strings are
already distinct and unseen. -/
theorem dedupPathsAux_eq_self : ∀ (seen : List String) (l : List Path),
    (l.map pathToString).Nodup → (∀ p ∈ l, pathToString p ∉ seen) →
    dedupPathsAux seen l = l
  | seen, [] => by
    intro _ _
    rw [dedupPathsAux]
  | seen, p :: rest => by
    intro hnd hns
    rw [List.map_cons, List.nodup_cons] at hnd
    rw [dedupPathsAux]
    split
    next h =>
      rw [List.elem_iff] at h
      exact absurd h (hns p (List.mem_cons_self p rest))
    next h =>
      rw [dedupPathsAux_eq_self (seen ++ [pathToString p]) rest hnd.2 ?_]
      intro q hq hmem
      rcases List.mem_append.1 hmem with hmem | hmem
      · exact hns q (List.mem_cons_of_mem p hq) hmem
      · rw [List.mem_singleton] at hmem
        exact hnd.1 (hmem ▸ List.mem_map_of_mem pathToString hq)

/-- Every node recovered from an id list carries an id from that list. -/
theorem mem_filterMap_getNode_id {g : Graph} {ids : List NodeId} {n : Node}
    (h : n ∈ ids.filterMap (fun id => g.getNode id)) : n.id ∈ ids := by
  rcases List.mem_filterMap.1 h with ⟨id, hid, hg⟩
  rw [Graph.getNode_id hg]
  exact hid

/-- Recovering nodes from a duplicate-free id list yields nodes with
duplicate-free ids. -/
theorem nodup_ids_filterMap_getNode {g : Graph} : ∀ {ids : List NodeId}, ids.Nodup →
    ((ids.filterMap (fun id => g.getNode id)).map (fun n => n.id)).Nodup := by
  intro ids
  induction ids with
  | nil => intro _; simp
  | cons id rest ih =>
    intro hnd
    rw [List.nodup_cons] at hnd
    rw [List.filterMap_cons]
    cases hg : g.getNode id with
    | none => exact ih hnd.2
    | some n =>
      rw [List.map_cons, List.nodup_cons]
      refine ⟨?_, ih hnd.2⟩
      intro hmem
      rcases List.mem_map.1 hmem with ⟨m, hm, hid⟩
      have := mem_filterMap_getNode_id hm
      rw [hid, Graph.getNode_id hg] at this
      exact hnd.1 this

/-- Filtering preserves distinctness of the mapped ids. -/
theorem ids_nodup_filter {l : List Node} (f : Node → Bool)
    (h : (l.map (fun n => n.id)).Nodup) :
    (((l.filter f).map (fun n => n.id)).Nodup) :=
  h.sublist (List.Sublist.map _ (List.filter_sublist l))

/-- A found cache entry is one of the cache's entries. -/
theorem findEntry_mem {α : Type} {bag : List (String × α)} {key : String} {v : α}
    (h : findEntry bag key = some v) : ∃ entry ∈ bag, entry.2 = v := by
  unfold findEntry at h
  rcases Option.map_eq_some'.1 h with ⟨entry, hfind, hv⟩
  exact ⟨entry, List.mem_of_find?_eq_some hfind, hv⟩

/-- Under the graph invariant (unique node ids) and well-formed caches
(duplicate-free cached id lists), `findMatchingNodes` returns nodes with
pairwise-distinct ids. -/
theorem findMatchingNodes_ids_nodup (opts : PatternMatcherOptions) (s : MatcherState)
    (g : Graph) (pat : NodePattern)
    (hg : (g.nodes.map (fun n => n.id)).Nodup)
    (hs : ∀ entry ∈ s.labelCache, entry.2.Nodup) :
    (((findMatchingNodes opts s g pat).1).map (fun n => n.id)).Nodup := by
  unfold findMatchingNodes
  split
  · exact ids_nodup_filter _ hg
  · refine ids_nodup_filter _ ?_
    simp only [getNodesByLabel]
    split
    next ids hfind =>
      rcases findEntry_mem hfind with ⟨entry, hmem, hv⟩
      exact nodup_ids_filterMap_getNode (hv ▸ hs entry hmem)
    next =>
      exact nodup_ids_filterMap_getNode (ids_nodup_filter _ hg)


/-- C7: the returned list equals the first-occurrence deduplication (by
canonical string) of the raw results in production order; consequently
no two returned paths share a canonical string. For a segment-free
pattern the raw results are already duplicate-free given the graph
invariant of unique node ids and well-formed caches. -/
theorem findMatchingPaths_dedup (opts : PatternMatcherOptions) (s : MatcherState)
    (g : Graph) (pat : PathPattern)
    (hg : (g.nodes.map (fun n => n.id)).Nodup)
    (hs : ∀ entry ∈ s.labelCache, entry.2.Nodup) :
    (findMatchingPaths opts s g pat).1
        = dedupPaths (findMatchingPathsRaw opts s g pat).1
    ∧ (((findMatchingPaths opts s g pat).1).map pathToString).Nodup := by
  have hnodup_init : ∀ (nodes : List Node), (nodes.map (fun n => n.id)).Nodup →
      ((nodes.map (fun n => ({ nodes := [n], edges := [] } : Path))).map
          pathToString).Nodup := by
    intro nodes h
    rw [List.map_map]
    have hfun : (pathToString ∘ fun n => ({ nodes := [n], edges := [] } : Path))
        = (fun i => i ++ "|") ∘ (fun n : Node => n.id) := by
      funext n
      exact pathToString_singleton n
    rw [hfun, ← List.map_map]
    exact h.map append_bar_injective
  have hfm := findMatchingNodes_ids_nodup opts s g pat.start hg hs
  cases hE : pat.segments.isEmpty
  case true =>
    simp only [findMatchingPaths, findMatchingPathsRaw, hE, if_true]
    constructor
    · refine (dedupPathsAux_eq_self [] _ ?_ (by simp)).symm
      split
      · exact hnodup_init _ (ids_nodup_filter _ hfm)
      · exact hnodup_init _ hfm
    · split
      · exact hnodup_init _ (ids_nodup_filter _ hfm)
      · exact hnodup_init _ hfm
  case false =>
    simp only [findMatchingPaths, findMatchingPathsRaw, hE, Bool.false_eq_true, if_false]
    exact ⟨trivial, (dedupPathsAux_nodup_strings [] _).1⟩

/-- C7 witness: a one-segment query on the chain graph from a fresh
matcher equals its own deduplication and has distinct canonical
strings. -/
theorem findMatchingPaths_dedup_witness :
    (findMatchingPaths (resolveOptions {}) .empty exChain (exSeg1 none none)).1
        = dedupPaths (findMatchingPathsRaw (resolveOptions {}) .empty exChain
            (exSeg1 none none)).1
    ∧ (((findMatchingPaths (resolveOptions {}) .empty exChain
          (exSeg1 none none)).1).map pathToString).Nodup :=
  findMatchingPaths_dedup (resolveOptions {}) .empty exChain (exSeg1 none none)
    (by decide) (by simp [MatcherState.empty])

/-! ### C8: clearing the caches does not change query results -/

/-- A matcher state is valid for a graph when every cache entry equals
exactly what a fresh scan of that graph would record under the entry's
(normalized) key. -/
def ValidState (opts : PatternMatcherOptions) (g : Graph) (s : MatcherState) : Prop :=
  (∀ entry ∈ s.labelCache,
      entry.2 = (g.findNodes (fun n =>
          normalizeLabel opts n.label == entry.1)).map (fun n => n.id))
  ∧ (∀ entry ∈ s.typeCache,
      entry.2 = (g.findEdges (fun e =>
          normalizeLabel opts e.label == entry.1)).map
          (fun e => (e.source, e.target, e.label)))

/-- A found cache entry carries the looked-up key. -/
theorem findEntry_mem_key {α : Type} {bag : List (String × α)} {key : String} {v : α}
    (h : findEntry bag key = some v) : ∃ entry ∈ bag, entry.1 = key ∧ entry.2 = v := by
  unfold findEntry at h
  rcases Option.map_eq_some'.1 h with ⟨entry, hfind, hv⟩
  refine ⟨entry, List.mem_of_find?_eq_some hfind, ?_, hv⟩
  have := List.find?_some hfind
  simpa using this

/-- The label scan predicate equals its normalized form. -/
theorem findNodes_label_pred (opts : PatternMatcherOptions) (g : Graph) (label : String) :
    g.findNodes (fun n => labelMatches opts (getNodeLabels n) label)
      = g.findNodes (fun n => normalizeLabel opts n.label == normalizeLabel opts label) := by
  unfold Graph.findNodes
  congr 1
  funext n
  rw [getNodeLabels, labelMatches_singleton]

/-- With a valid cache, `getNodesByLabel` returns what a fresh matcher
returns. -/
theorem getNodesByLabel_cache_free (opts : PatternMatcherOptions) (s : MatcherState)
    (g : Graph) (label : String) (hv : ValidState opts g s) :
    (getNodesByLabel opts s g label).1
      = (getNodesByLabel opts MatcherState.empty g label).1 := by
  simp only [getNodesByLabel, MatcherState.empty, findEntry, List.find?_nil,
    Option.map_none']
  split
  next ids hfind =>
    rcases findEntry_mem_key (by simpa [findEntry] using hfind) with ⟨entry, hmem, hkey, hveq⟩
    have hids := hv.1 entry hmem
    rw [hkey] at hids
    rw [← hveq, hids, findNodes_label_pred]
  next => rfl

/-- With a valid cache, `findMatchingNodes` returns what a fresh matcher
returns. -/
theorem findMatchingNodes_cache_free (opts : PatternMatcherOptions) (s : MatcherState)
    (g : Graph) (pat : NodePattern) (hv : ValidState opts g s) :
    (findMatchingNodes opts s g pat).1
      = (findMatchingNodes opts MatcherState.empty g pat).1 := by
  cases hL : pat.labels with
  | nil => simp only [findMatchingNodes, hL]
  | cons l0 ls =>
    simp only [findMatchingNodes, hL]
    rw [getNodesByLabel_cache_free opts s g l0 hv]

/-- With a valid cache, `getRelationshipsByType` returns what a fresh
matcher returns. -/
theorem getRelationshipsByType_cache_free (opts : PatternMatcherOptions) (s : MatcherState)
    (g : Graph) (type : String) (hv : ValidState opts g s) :
    (getRelationshipsByType opts s g type).1
      = (getRelationshipsByType opts MatcherState.empty g type).1 := by
  simp only [getRelationshipsByType, MatcherState.empty, findEntry, List.find?_nil,
    Option.map_none']
  split
  next ids hfind =>
    rcases findEntry_mem_key (by simpa [findEntry] using hfind) with ⟨entry, hmem, hkey, hveq⟩
    have hids := hv.2 entry hmem
    rw [hkey] at hids
    rw [← hveq, hids]
    rfl
  next => rfl

/-- With a valid cache, `findMatchingPaths` returns what a fresh matcher
returns. -/
theorem findMatchingPaths_cache_free (opts : PatternMatcherOptions) (s : MatcherState)
    (g : Graph) (pat : PathPattern) (hv : ValidState opts g s) :
    (findMatchingPaths opts s g pat).1
      = (findMatchingPaths opts MatcherState.empty g pat).1 := by
  have h := findMatchingNodes_cache_free opts s g pat.start hv
  cases hE : pat.segments.isEmpty <;>
    simp only [findMatchingPaths, findMatchingPathsRaw, h, hE, Bool.false_eq_true,
      if_false, if_true]

/-- C8: for an unmodified graph, clearing the caches and repeating a
node, path, or relationship-type query yields the same results as
running it with the caches intact — provided the cache state is valid
for the graph (as every cache populated from this graph is). -/
theorem clearCache_repeat_query (opts : PatternMatcherOptions) (g : Graph)
    (s : MatcherState) (npat : NodePattern) (ppat : PathPattern) (rtype : String)
    (hv : ValidState opts g s) :
    (findMatchingNodes opts (clearCache s) g npat).1 = (findMatchingNodes opts s g npat).1
    ∧ (findMatchingPaths opts (clearCache s) g ppat).1
        = (findMatchingPaths opts s g ppat).1
    ∧ (getRelationshipsByType opts (clearCache s) g rtype).1
        = (getRelationshipsByType opts s g rtype).1 :=
  ⟨(findMatchingNodes_cache_free opts s g npat hv).symm,
   (findMatchingPaths_cache_free opts s g ppat hv).symm,
   (getRelationshipsByType_cache_free opts s g rtype hv).symm⟩

/-- Case-sensitive options, under which concrete label computations are
kernel-evaluable. -/
def csOpts : PatternMatcherOptions := resolveOptions { caseSensitiveLabels := some true }

/-- A populated matcher state that is valid for `exChain` under
`csOpts`. -/
def exState : MatcherState :=
  { labelCache := [("N", ["a", "b", "c"])]
    typeCache := [("T", [("a", "b", "T"), ("b", "c", "T")])] }

/-- C8 witness: on the chain graph with a populated valid cache,
clearing the caches and re-running node, path, and type queries returns
the same results. -/
theorem clearCache_repeat_query_witness :
    (findMatchingNodes csOpts (clearCache exState) exChain exAnyNode).1
        = (findMatchingNodes csOpts exState exChain exAnyNode).1
    ∧ (findMatchingPaths csOpts (clearCache exState) exChain (exSeg1 none none)).1
        = (findMatchingPaths csOpts exState exChain (exSeg1 none none)).1
    ∧ (getRelationshipsByType csOpts (clearCache exState) exChain "T").1
        = (getRelationshipsByType csOpts exState exChain "T").1 :=
  clearCache_repeat_query csOpts exChain exState exAnyNode (exSeg1 none none) "T"
    (by constructor <;> decide)

end Cannonball
